import Mathlib

/-!
Verification of the core of the mirakc tuner-sharing daemon: the EIT
feeder/collector (`src/eit_feeder.rs`) and the per-session broadcaster
(`src/broadcaster.rs`), over a shallow embedding in Lean.

Machine integers (u8/u16/usize) are modelled as `Nat`; the claims proved
here never exercise overflow.  Side effects (the `do_send` calls to the
EPG actor) are made explicit as a list of emitted messages, in emission
order.  Fallible operations are modelled with `Except`.
-/

/-! ## Identifier types (newtypes over u16 in `models.rs`) -/

abbrev NetworkId := Nat
abbrev TransportStreamId := Nat
abbrev ServiceId := Nat
abbrev EventId := Nat

/-- `(original_network_id, transport_stream_id, service_id)`. -/
abbrev ServiceTriple := NetworkId × TransportStreamId × ServiceId

/-- Opaque error values (`crate::error::Error`); only propagation matters here. -/
abbrev Error := String

/-! ## `EitSection` and its parts (from `src/eit_feeder.rs`) -/

inductive EitDescriptor where
  | shortEvent (event_name text : String)
  | component (stream_content component_type : Nat)
  | audioComponent (component_type sampling_rate : Nat)
  | content (nibbles : List (Nat × Nat × Nat × Nat))
  | extendedEvent (items : List (String × String))
  deriving DecidableEq

structure EitEvent where
  event_id : EventId
  start_time : Int
  duration : Int
  scrambled : Bool
  descriptors : List EitDescriptor
  deriving DecidableEq

structure EitSection where
  original_network_id : NetworkId
  transport_stream_id : TransportStreamId
  service_id : ServiceId
  table_id : Nat
  section_number : Nat
  last_section_number : Nat
  segment_last_section_number : Nat
  version_number : Nat
  events : List EitEvent
  deriving DecidableEq

/-- `EitSection::service_triple`. -/
def EitSection.service_triple (s : EitSection) : ServiceTriple :=
  (s.original_network_id, s.transport_stream_id, s.service_id)

/-! ## `EpgChannel`, `EpgService` and the feeder's grouping

`EpgChannel` is defined in `epg.rs`/`models.rs` (not under `src/`); its six
fields are exactly those used by `EitFeeder::feed_eit_sections` when it
builds one.  `EpgService` carries the fields the feeder reads
(`sv.nid`, `sv.sid`, `sv.channel.*`), per the spec's interface
`QueryServices() -> List<EpgService>`. -/

structure EpgChannel where
  name : String
  channel_type : Nat
  channel : String
  extra_args : String
  services : List ServiceId
  excluded_services : List ServiceId
  deriving DecidableEq

structure EpgService where
  nid : NetworkId
  sid : ServiceId
  channel : EpgChannel
  deriving DecidableEq

/-- The record built by the `or_insert` arm in `EitFeeder::feed_eit_sections`:
metadata cloned from `sv.channel`, `services := vec![sv.sid]`,
`excluded_services := vec![]`. -/
def mkChannelEntry (sv : EpgService) : EpgChannel :=
  { name := sv.channel.name
    channel_type := sv.channel.channel_type
    channel := sv.channel.channel
    extra_args := sv.channel.extra_args
    services := [sv.sid]
    excluded_services := [] }

/-- One step of the `map.entry(sv.nid).and_modify(..).or_insert(..)` loop.
The `HashMap` is modelled as an association list in first-insertion order
(iteration order of the real `HashMap` is unspecified; every property we
state about the grouping is order-insensitive). -/
def upsertService : List (NetworkId × EpgChannel) → EpgService → List (NetworkId × EpgChannel)
  | [], sv => [(sv.nid, mkChannelEntry sv)]
  | (k, ch) :: rest, sv =>
      if k = sv.nid then
        (k, { ch with services := ch.services ++ [sv.sid] }) :: rest
      else
        (k, ch) :: upsertService rest sv

/-- The grouping loop of `EitFeeder::feed_eit_sections` (lines 51-64). -/
def groupServices (svs : List EpgService) : List (NetworkId × EpgChannel) :=
  svs.foldl upsertService []

/-- Association-list lookup (first match), the counterpart of `HashMap` access. -/
def lookupNid (nid : NetworkId) : List (NetworkId × EpgChannel) → Option EpgChannel
  | [] => none
  | (k, ch) :: rest => if k = nid then some ch else lookupNid nid rest

/-! ## The collector (`EitCollector`) -/

/-- `EitCollector::UPDATE_CHUNK_SIZE`. -/
def UPDATE_CHUNK_SIZE : Nat := 32

/-- Messages `do_send`-dispatched to the EPG store. -/
inductive EpgMsg where
  | update (sections : List EitSection)
  | flush (triples : List ServiceTriple)
  deriving DecidableEq

/-- One iteration's input of the read loop: either a line that read and
parsed to an `EitSection`, or a read-I/O / JSON-parse failure. -/
inductive LineResult where
  | ok (eit : EitSection)
  | err (e : Error)
  deriving DecidableEq

/-- `HashSet::insert`, modelled on a duplicate-free list in insertion order
(the real set's iteration order is unspecified; claims about the flushed
triples are stated as set membership). -/
def hashsetInsert (ts : List ServiceTriple) (t : ServiceTriple) : List ServiceTriple :=
  if t ∈ ts then ts else ts ++ [t]

/-- The `while reader.read_line(..)` loop of `EitCollector::collect_eits_in_channel`
(lines 189-214), together with the partial-batch flush and the final
`FlushSchedulesMessage`.  Arguments: remaining lines, the current `sections`
batch, the `triples` set, and `num_sections`.  Returns the messages sent
(in order) and either the section count (success) or the first error; on
error, batches already dispatched stay sent and no flush is emitted, as in
the source where `?` returns before the tail of the function. -/
def readLoop : List LineResult → List EitSection → List ServiceTriple → Nat →
    List EpgMsg × Except Error Nat
  | [], sections, triples, n =>
      ((if sections.isEmpty then [] else [EpgMsg.update sections])
        ++ [EpgMsg.flush triples], Except.ok n)
  | LineResult.err e :: _, _, _, _ => ([], Except.error e)
  | LineResult.ok eit :: rest, sections, triples, n =>
      let triples2 := hashsetInsert triples eit.service_triple
      let sections2 := sections ++ [eit]
      if sections2.length = UPDATE_CHUNK_SIZE then
        let r := readLoop rest [] triples2 (n + 1)
        (EpgMsg.update sections2 :: r.1, r.2)
      else
        readLoop rest sections2 triples2 (n + 1)

deriving instance DecidableEq for Except

/-- The per-channel input of `EitCollector::collect_eits_in_channel`: the
channel, the outcomes of the three fallible setup stages in source order
(`tuner_manager.send(StartStreaming..)`, mustache compile + insert + render,
`spawn_pipeline`), and the line stream read from the pipeline output. -/
structure ChannelInput where
  channel : EpgChannel
  tunerResult : Except Error Unit
  templateResult : Except Error Unit
  spawnResult : Except Error Unit
  lines : List LineResult
  deriving DecidableEq

/-- `EitCollector::collect_eits_in_channel` (lines 151-220): each `?` stage
aborts with its error before any message is sent; otherwise the read loop
runs.  Returns the messages sent and either `num_sections` or the error. -/
def collectEitsInChannel (ci : ChannelInput) : List EpgMsg × Except Error Nat :=
  match ci.tunerResult with
  | Except.error e => ([], Except.error e)
  | Except.ok _ =>
    match ci.templateResult with
    | Except.error e => ([], Except.error e)
    | Except.ok _ =>
      match ci.spawnResult with
      | Except.error e => ([], Except.error e)
      | Except.ok _ => readLoop ci.lines [] [] 0

/-- The `for channel in self.channels` loop of `EitCollector::collect_schedules`
(lines 142-146), threading the `num_sections` accumulator; `?` aborts at the
first failing channel. -/
def collectSchedulesLoop : List ChannelInput → Nat → List EpgMsg × Except Error Nat
  | [], n => ([], Except.ok n)
  | ci :: rest, n =>
      let r := collectEitsInChannel ci
      match r.2 with
      | Except.error e => (r.1, Except.error e)
      | Except.ok k =>
          let r2 := collectSchedulesLoop rest (n + k)
          (r.1 ++ r2.1, r2.2)

/-- `EitCollector::collect_schedules` (lines 138-149): on success the
accumulated count is only logged and the function returns `Ok(())`. -/
def collectSchedules (cis : List ChannelInput) : List EpgMsg × Except Error Unit :=
  let r := collectSchedulesLoop cis 0
  (r.1, r.2.map (fun _ => ()))

/-- The value `collect_schedules` returns to its caller. -/
def collectSchedulesResult (cis : List ChannelInput) : Except Error Unit :=
  (collectSchedules cis).2

/-- The internal `num_sections` accumulator of `collect_schedules` (the value
it logs), exposed for comparison with the spec. -/
def collectSchedulesNumSections (cis : List ChannelInput) : Except Error Nat :=
  (collectSchedulesLoop cis 0).2

/-- A channel input whose setup stages all succeed and whose every line
parses, built from the parsed sections. -/
def okInput (ch : EpgChannel) (secs : List EitSection) : ChannelInput :=
  { channel := ch
    tunerResult := Except.ok ()
    templateResult := Except.ok ()
    spawnResult := Except.ok ()
    lines := secs.map LineResult.ok }

/-! ## Fixed-size chunking

`chunksAcc S acc l` chunks `acc ++ l` into consecutive groups of exactly `S`
elements, the last group possibly shorter and present iff non-empty, with
`acc` the in-progress group.  For the collector claims this is the spec-side
description of the `UpdateSchedules` batches, to be compared with the
batches `readLoop` emits.  For the Chunk Stream claims it is
Modelled from the spec: `chunk_stream.rs` (the `ChunkStream` adapter) is not
under `src/`; per the spec, each emitted chunk has length exactly `S` except
possibly the final one, emitted iff non-empty, with no buffering beyond the
in-progress chunk. -/
def chunksAcc (S : Nat) (acc : List α) : List α → List (List α)
  | [] => if acc.isEmpty then [] else [acc]
  | x :: rest =>
      if (acc ++ [x]).length = S then (acc ++ [x]) :: chunksAcc S [] rest
      else chunksAcc S (acc ++ [x]) rest

/-! ## Lemmas about the chunking and the read loop -/

theorem chunksAcc_flatten (S : Nat) (l : List α) :
    ∀ acc : List α, (chunksAcc S acc l).flatten = acc ++ l := by
  induction l with
  | nil =>
      intro acc
      by_cases h : acc.isEmpty
      · rw [chunksAcc, if_pos h]
        simp [List.isEmpty_iff.mp h]
      · rw [chunksAcc, if_neg h]
        simp
  | cons x rest ih =>
      intro acc
      by_cases h : (acc ++ [x]).length = S
      · rw [chunksAcc, if_pos h]
        simp [ih]
      · rw [chunksAcc, if_neg h]
        simp [ih]

theorem chunksAcc_mem (S : Nat) (l : List α) :
    ∀ acc : List α, acc.length < S →
      ∀ c ∈ chunksAcc S acc l, c ≠ [] ∧ c.length ≤ S := by
  induction l with
  | nil =>
      intro acc hacc c hc
      by_cases h : acc.isEmpty
      · simp [chunksAcc, h] at hc
      · rw [chunksAcc, if_neg h] at hc
        simp at hc
        subst hc
        exact ⟨fun he => h (by simp [he]), Nat.le_of_lt hacc⟩
  | cons x rest ih =>
      intro acc hacc c hc
      by_cases h : (acc ++ [x]).length = S
      · rw [chunksAcc, if_pos h] at hc
        rcases List.mem_cons.mp hc with hc | hc
        · subst hc
          refine ⟨by simp, Nat.le_of_eq h⟩
        · exact ih [] (by simpa using Nat.lt_of_le_of_lt (Nat.zero_le _) hacc) c hc
      · rw [chunksAcc, if_neg h] at hc
        have h2 : (acc ++ [x]).length < S := by
          simp only [List.length_append, List.length_singleton] at h ⊢
          omega
        exact ih (acc ++ [x]) h2 c hc

theorem chunksAcc_dropLast (S : Nat) (l : List α) :
    ∀ acc : List α, acc.length < S →
      ∀ c ∈ (chunksAcc S acc l).dropLast, c.length = S := by
  induction l with
  | nil =>
      intro acc _ c hc
      by_cases h : acc.isEmpty
      · simp [chunksAcc, h] at hc
      · rw [chunksAcc, if_neg h] at hc
        simp at hc
  | cons x rest ih =>
      intro acc hacc c hc
      by_cases h : (acc ++ [x]).length = S
      · rw [chunksAcc, if_pos h] at hc
        by_cases ht : chunksAcc S [] rest = []
        · rw [ht] at hc
          simp at hc
        · rw [List.dropLast_cons_of_ne_nil ht] at hc
          rcases List.mem_cons.mp hc with hc | hc
          · subst hc; exact h
          · exact ih [] (by simpa using Nat.lt_of_le_of_lt (Nat.zero_le _) hacc) c hc
      · rw [chunksAcc, if_neg h] at hc
        have h2 : (acc ++ [x]).length < S := by
          simp only [List.length_append, List.length_singleton] at h ⊢
          omega
        exact ih (acc ++ [x]) h2 c hc

theorem chunksAcc_eq_nil_iff (S : Nat) (l : List α) :
    chunksAcc S [] l = [] ↔ l = [] := by
  constructor
  · intro h
    have hj := chunksAcc_flatten S l []
    rw [h] at hj
    simpa using hj.symm
  · intro h
    subst h
    simp [chunksAcc]

/-- The set of triples accumulated by folding `hashsetInsert` is the set of
triples seen, and stays duplicate-free. -/
theorem foldl_hashsetInsert_mem (l : List EitSection) :
    ∀ (ts : List ServiceTriple) (t : ServiceTriple),
      t ∈ l.foldl (fun a e => hashsetInsert a e.service_triple) ts ↔
        t ∈ ts ∨ t ∈ l.map EitSection.service_triple := by
  induction l with
  | nil => intro ts t; simp
  | cons e rest ih =>
      intro ts t
      rw [List.foldl_cons, ih]
      unfold hashsetInsert
      by_cases h : e.service_triple ∈ ts
      · rw [if_pos h]
        simp only [List.map_cons, List.mem_cons]
        constructor
        · rintro (h1 | h1)
          · exact Or.inl h1
          · exact Or.inr (Or.inr h1)
        · rintro (h1 | h1 | h1)
          · exact Or.inl h1
          · exact Or.inl (h1 ▸ h)
          · exact Or.inr h1
      · rw [if_neg h]
        simp only [List.mem_append, List.mem_singleton, List.map_cons, List.mem_cons]
        tauto

theorem foldl_hashsetInsert_nodup (l : List EitSection) :
    ∀ ts : List ServiceTriple, ts.Nodup →
      (l.foldl (fun a e => hashsetInsert a e.service_triple) ts).Nodup := by
  induction l with
  | nil => intro ts h; simpa using h
  | cons e rest ih =>
      intro ts h
      rw [List.foldl_cons]
      apply ih
      unfold hashsetInsert
      by_cases hm : e.service_triple ∈ ts
      · rwa [if_pos hm]
      · rw [if_neg hm]
        simpa [List.nodup_append] using ⟨h, hm⟩

/-- On an all-parsing line stream, the read loop emits exactly the chunked
update batches followed by one flush of the accumulated triples, and counts
every section. -/
theorem readLoop_ok_eq (l : List EitSection) :
    ∀ (acc : List EitSection) (triples : List ServiceTriple) (n : Nat),
      acc.length < UPDATE_CHUNK_SIZE →
      readLoop (l.map LineResult.ok) acc triples n =
        ((chunksAcc UPDATE_CHUNK_SIZE acc l).map EpgMsg.update
           ++ [EpgMsg.flush (l.foldl (fun ts e => hashsetInsert ts e.service_triple) triples)],
         Except.ok (n + l.length)) := by
  induction l with
  | nil =>
      intro acc triples n _
      by_cases h : acc.isEmpty
      · simp [readLoop, chunksAcc, h]
      · simp [readLoop, chunksAcc, h]
  | cons e rest ih =>
      intro acc triples n hacc
      by_cases h : (acc ++ [e]).length = UPDATE_CHUNK_SIZE
      · rw [List.map_cons, readLoop, if_pos h, chunksAcc, if_pos h,
            ih [] _ (n + 1) (by simp [UPDATE_CHUNK_SIZE])]
        simp only [List.map_cons, List.foldl_cons, List.cons_append, List.length_cons]
        have hn : n + 1 + rest.length = n + (rest.length + 1) := by omega
        rw [hn]
      · have h2 : (acc ++ [e]).length < UPDATE_CHUNK_SIZE := by
          simp only [List.length_append, List.length_singleton] at h ⊢
          simp only [UPDATE_CHUNK_SIZE] at *
          omega
        rw [List.map_cons, readLoop, if_neg h, chunksAcc, if_neg h,
            ih (acc ++ [e]) _ (n + 1) h2]
        simp only [List.foldl_cons, List.length_cons]
        have hn : n + 1 + rest.length = n + (rest.length + 1) := by omega
        rw [hn]

/-- On a channel input whose setup stages succeed and whose lines all parse,
`collect_eits_in_channel` succeeds with the number of lines. -/
theorem collectEits_okInput_snd (ch : EpgChannel) (secs : List EitSection) :
    (collectEitsInChannel (okInput ch secs)).2 = Except.ok secs.length := by
  have h : collectEitsInChannel (okInput ch secs)
      = readLoop (secs.map LineResult.ok) [] [] 0 := rfl
  rw [h, readLoop_ok_eq secs [] [] 0 (by simp [UPDATE_CHUNK_SIZE])]
  simp

/-- A read-I/O or JSON-parse failure anywhere in the line stream makes the
read loop abort with that error. -/
theorem readLoop_err (pref : List EitSection) (e : Error) (rest : List LineResult) :
    ∀ (acc : List EitSection) (triples : List ServiceTriple) (n : Nat),
      (readLoop (pref.map LineResult.ok ++ LineResult.err e :: rest) acc triples n).2
        = Except.error e := by
  induction pref with
  | nil => intro acc triples n; rfl
  | cons s tl ih =>
      intro acc triples n
      simp only [List.map_cons, List.cons_append, readLoop]
      by_cases h : (acc ++ [s]).length = UPDATE_CHUNK_SIZE
      · rw [if_pos h]
        exact ih [] _ _
      · rw [if_neg h]
        exact ih _ _ _

/-- The channel loop aborts at the first failing channel: the result is the
same whatever channels follow it, and the error is surfaced. -/
theorem collectSchedulesLoop_error (ci : ChannelInput) (post : List ChannelInput)
    (e : Error) (hci : (collectEitsInChannel ci).2 = Except.error e) :
    ∀ (pre : List ChannelInput) (n : Nat),
      (∀ cj ∈ pre, ∃ k, (collectEitsInChannel cj).2 = Except.ok k) →
      collectSchedulesLoop (pre ++ ci :: post) n = collectSchedulesLoop (pre ++ [ci]) n ∧
      (collectSchedulesLoop (pre ++ ci :: post) n).2 = Except.error e := by
  intro pre
  induction pre with
  | nil =>
      intro n _
      simp only [List.nil_append, collectSchedulesLoop, hci]
      exact ⟨trivial, trivial⟩
  | cons cj tl ih =>
      intro n hpre
      obtain ⟨k, hk⟩ := hpre cj (List.mem_cons_self cj tl)
      have htl : ∀ c2 ∈ tl, ∃ k2, (collectEitsInChannel c2).2 = Except.ok k2 :=
        fun c2 hc2 => hpre c2 (List.mem_cons_of_mem cj hc2)
      have hih := ih (n + k) htl
      simp only [List.cons_append, collectSchedulesLoop, hk, List.append_eq]
      constructor
      · rw [hih.1]
      · exact hih.2

/-- On all-successful channels the loop accumulates the per-channel counts. -/
theorem collectSchedulesLoop_ok (inputs : List (EpgChannel × List EitSection)) :
    ∀ n : Nat,
      (collectSchedulesLoop (inputs.map (fun p => okInput p.1 p.2)) n).2 =
        Except.ok (n + (inputs.map (fun p => p.2.length)).sum) := by
  induction inputs with
  | nil => intro n; simp [collectSchedulesLoop]
  | cons p rest ih =>
      intro n
      simp only [List.map_cons, collectSchedulesLoop, collectEits_okInput_snd, ih]
      have hn : n + p.2.length + (rest.map (fun p => p.2.length)).sum
          = n + (p.2.length + (rest.map (fun p => p.2.length)).sum) := by omega
      simp [hn]

/-- C1: in one channel collection over an input stream whose every line
parses, the dispatched `UpdateSchedules` batches partition the parsed
sections into consecutive groups of exactly 32 in stream order, the last
group possibly shorter and dispatched only if non-empty, followed by exactly
one `FlushSchedules` carrying exactly the set of distinct service triples of
the sections seen. -/
theorem collect_eits_partition_and_flush (ch : EpgChannel) (l : List EitSection) :
    ∃ (batches : List (List EitSection)) (ts : List ServiceTriple),
      (collectEitsInChannel (okInput ch l)).1
          = batches.map EpgMsg.update ++ [EpgMsg.flush ts] ∧
      batches.flatten = l ∧
      (∀ b ∈ batches.dropLast, b.length = UPDATE_CHUNK_SIZE) ∧
      (∀ b ∈ batches, b ≠ [] ∧ b.length ≤ UPDATE_CHUNK_SIZE) ∧
      ts.Nodup ∧
      (∀ t, t ∈ ts ↔ t ∈ l.map EitSection.service_triple) := by
  refine ⟨chunksAcc UPDATE_CHUNK_SIZE [] l,
          l.foldl (fun a e => hashsetInsert a e.service_triple) [],
          ?_, ?_, ?_, ?_, ?_, ?_⟩
  · have h : collectEitsInChannel (okInput ch l)
        = readLoop (l.map LineResult.ok) [] [] 0 := rfl
    rw [h, readLoop_ok_eq l [] [] 0 (by simp [UPDATE_CHUNK_SIZE])]
  · simpa using chunksAcc_flatten UPDATE_CHUNK_SIZE l []
  · exact chunksAcc_dropLast UPDATE_CHUNK_SIZE l [] (by simp [UPDATE_CHUNK_SIZE])
  · exact chunksAcc_mem UPDATE_CHUNK_SIZE l [] (by simp [UPDATE_CHUNK_SIZE])
  · exact foldl_hashsetInsert_nodup l [] List.nodup_nil
  · intro t
    rw [foldl_hashsetInsert_mem]
    simp

/-! Sample data for counterexamples and witnesses. -/

def sampleChannel : EpgChannel :=
  { name := "ch", channel_type := 0, channel := "27", extra_args := ""
    services := [], excluded_services := [] }

def sampleSection (i : Nat) : EitSection :=
  { original_network_id := 1, transport_stream_id := 2, service_id := i % 3
    table_id := 80, section_number := 0, last_section_number := 0
    segment_last_section_number := 0, version_number := 0, events := [] }

/-- C2 counterexample: `collect_schedules` does not return the accumulated
section count; it returns `Ok(())` on success.  Two runs with different
totals (0 and 1) produce the identical return value, while the internal
accumulator (the value the function logs) differs. -/
theorem collect_schedules_return_is_unit :
    collectSchedulesResult [okInput sampleChannel []] =
      collectSchedulesResult [okInput sampleChannel [sampleSection 0]] ∧
    collectSchedulesNumSections [okInput sampleChannel []] = Except.ok 0 ∧
    collectSchedulesNumSections [okInput sampleChannel [sampleSection 0]] = Except.ok 1 := by
  exact ⟨rfl, rfl, rfl⟩

/-- C2 (amended): on success `collect_schedules` returns `Ok(())`, and its
internal `num_sections` accumulator (the logged value) equals the total
number of EIT sections across all channels (e.g. 70 for 70 valid lines). -/
theorem collect_schedules_accumulates_total
    (inputs : List (EpgChannel × List EitSection)) :
    collectSchedulesNumSections (inputs.map (fun p => okInput p.1 p.2)) =
      Except.ok ((inputs.map (fun p => p.2.length)).sum) ∧
    collectSchedulesResult (inputs.map (fun p => okInput p.1 p.2)) = Except.ok () := by
  have h := collectSchedulesLoop_ok inputs 0
  refine ⟨by simpa [collectSchedulesNumSections] using h, ?_⟩
  simp only [collectSchedulesResult, collectSchedules, h]
  rfl

/-- C8: any failure during one channel's collection (tuner acquisition,
template compile/render, pipeline spawn, JSON parse of a line, read I/O)
aborts the entire run with that error surfaced; no later channel is
processed (the run's outcome does not depend on the channels after the
failing one). -/
theorem collect_schedules_failure_aborts (pre : List ChannelInput) (ci : ChannelInput)
    (post : List ChannelInput) (n : Nat) (e : Error)
    (hpre : ∀ cj ∈ pre, ∃ k, (collectEitsInChannel cj).2 = Except.ok k)
    (hci : (collectEitsInChannel ci).2 = Except.error e) :
    collectSchedulesLoop (pre ++ ci :: post) n = collectSchedulesLoop (pre ++ [ci]) n ∧
    (collectSchedulesLoop (pre ++ ci :: post) n).2 = Except.error e ∧
    collectSchedulesResult (pre ++ ci :: post) = Except.error e ∧
    (∀ (ci2 : ChannelInput) (e2 : Error), ci2.tunerResult = Except.error e2 →
        (collectEitsInChannel ci2).2 = Except.error e2) ∧
    (∀ (ci2 : ChannelInput) (e2 : Error), ci2.tunerResult = Except.ok () →
        ci2.templateResult = Except.error e2 →
        (collectEitsInChannel ci2).2 = Except.error e2) ∧
    (∀ (ci2 : ChannelInput) (e2 : Error), ci2.tunerResult = Except.ok () →
        ci2.templateResult = Except.ok () → ci2.spawnResult = Except.error e2 →
        (collectEitsInChannel ci2).2 = Except.error e2) ∧
    (∀ (ch : EpgChannel) (pref : List EitSection) (e2 : Error) (rest2 : List LineResult),
        (collectEitsInChannel
            { channel := ch, tunerResult := Except.ok (), templateResult := Except.ok ()
              spawnResult := Except.ok ()
              lines := pref.map LineResult.ok ++ LineResult.err e2 :: rest2 }).2
          = Except.error e2) := by
  obtain ⟨h1, h2⟩ := collectSchedulesLoop_error ci post e hci pre n hpre
  obtain ⟨_, h2z⟩ := collectSchedulesLoop_error ci post e hci pre 0 hpre
  refine ⟨h1, h2, ?_, ?_, ?_, ?_, ?_⟩
  · simp only [collectSchedulesResult, collectSchedules, h2z]
    rcases hl : (collectSchedulesLoop (pre ++ ci :: post) 0).2 with e3 | v
    · rw [hl] at h2z
      cases h2z
      rfl
    · rw [hl] at h2z
      cases h2z
  · intro ci2 e2 ht
    simp [collectEitsInChannel, ht]
  · intro ci2 e2 ht htm
    simp [collectEitsInChannel, ht, htm]
  · intro ci2 e2 ht htm hs
    simp [collectEitsInChannel, ht, htm, hs]
  · intro ch pref e2 rest2
    exact readLoop_err pref e2 rest2 [] [] 0

/-- C8 witness at a concrete input: one good channel, then a channel whose
tuner acquisition fails, then another channel; the run errors out. -/
theorem collect_schedules_failure_aborts_witness :
    (collectSchedulesLoop
        ([okInput sampleChannel []] ++
          ({ channel := sampleChannel, tunerResult := Except.error "no tuner"
             templateResult := Except.ok (), spawnResult := Except.ok ()
             lines := [] } : ChannelInput) ::
          [okInput sampleChannel [sampleSection 0]]) 0).2 = Except.error "no tuner" :=
  (collect_schedules_failure_aborts [okInput sampleChannel []]
    { channel := sampleChannel, tunerResult := Except.error "no tuner"
      templateResult := Except.ok (), spawnResult := Except.ok (), lines := [] }
    [okInput sampleChannel [sampleSection 0]] 0 "no tuner"
    (by
      intro cj hcj
      simp only [List.mem_singleton] at hcj
      subst hcj
      exact ⟨0, rfl⟩)
    rfl).2.1

/-- C10: a channel whose pipeline output contains zero lines produces no
`UpdateSchedules` at all, exactly one `FlushSchedules` with an empty triple
list, and contributes 0 to the accumulated section count. -/
theorem collect_empty_channel (ch : EpgChannel) (rest : List ChannelInput) (n : Nat) :
    collectEitsInChannel (okInput ch []) = ([EpgMsg.flush []], Except.ok 0) ∧
    collectSchedulesLoop (okInput ch [] :: rest) n =
      (EpgMsg.flush [] :: (collectSchedulesLoop rest n).1,
       (collectSchedulesLoop rest n).2) := by
  refine ⟨rfl, ?_⟩
  simp [collectSchedulesLoop, collectEitsInChannel, okInput, readLoop]

/-! ## The feeder's grouping (C3) -/

theorem lookupNid_upsert (m : List (NetworkId × EpgChannel)) (sv : EpgService)
    (nid : NetworkId) :
    lookupNid nid (upsertService m sv) =
      if sv.nid = nid then
        match lookupNid nid m with
        | some ch => some { ch with services := ch.services ++ [sv.sid] }
        | none => some (mkChannelEntry sv)
      else lookupNid nid m := by
  induction m with
  | nil =>
      by_cases h : sv.nid = nid
      · simp [upsertService, lookupNid, h]
      · simp [upsertService, lookupNid, h]
  | cons p rest ih =>
      obtain ⟨k, ch⟩ := p
      by_cases hk : k = sv.nid
      · by_cases hn : k = nid
        · have hsd : sv.nid = nid := hk ▸ hn
          simp only [upsertService, if_pos hk, lookupNid, if_pos hn, if_pos hsd]
        · have hsd : ¬sv.nid = nid := fun h => hn (hk.trans h)
          simp only [upsertService, if_pos hk, lookupNid, if_neg hn, if_neg hsd]
      · by_cases hn : k = nid
        · have hsd : ¬sv.nid = nid := fun h => hk (hn.trans h.symm)
          simp only [upsertService, if_neg hk, lookupNid, if_pos hn, if_neg hsd]
        · simp only [upsertService, if_neg hk, lookupNid, if_neg hn]
          exact ih

theorem lookupNid_foldl_upsert (svs : List EpgService) :
    ∀ (m : List (NetworkId × EpgChannel)) (nid : NetworkId),
      lookupNid nid (svs.foldl upsertService m) =
        match lookupNid nid m with
        | some ch => some { ch with services :=
            ch.services ++ (svs.filter (fun sv => sv.nid = nid)).map (fun sv => sv.sid) }
        | none =>
          match svs.filter (fun sv => sv.nid = nid) with
          | [] => none
          | sv0 :: tl => some { mkChannelEntry sv0 with
              services := sv0.sid :: tl.map (fun sv => sv.sid) } := by
  induction svs with
  | nil =>
      intro m nid
      cases hm : lookupNid nid m with
      | none => simp [hm]
      | some ch => simp [hm]
  | cons sv tl ih =>
      intro m nid
      rw [List.foldl_cons, ih (upsertService m sv) nid, lookupNid_upsert]
      by_cases hs : sv.nid = nid
      · rw [if_pos hs]
        cases hm : lookupNid nid m with
        | none =>
            simp only [List.filter_cons, decide_eq_true_eq, if_pos hs, hm]
            simp [mkChannelEntry]
        | some ch =>
            simp only [List.filter_cons, decide_eq_true_eq, if_pos hs, hm]
            simp
      · rw [if_neg hs]
        cases hm : lookupNid nid m with
        | none =>
            simp only [List.filter_cons, decide_eq_true_eq, if_neg hs, hm]
        | some ch =>
            simp only [List.filter_cons, decide_eq_true_eq, if_neg hs, hm]

theorem upsertService_keys (m : List (NetworkId × EpgChannel)) (sv : EpgService) :
    (upsertService m sv).map Prod.fst =
      if sv.nid ∈ m.map Prod.fst then m.map Prod.fst
      else m.map Prod.fst ++ [sv.nid] := by
  induction m with
  | nil => simp [upsertService]
  | cons p rest ih =>
      obtain ⟨k, ch⟩ := p
      by_cases hk : k = sv.nid
      · simp [upsertService, hk]
      · simp only [upsertService, if_neg hk, List.map_cons, ih]
        by_cases hmem : sv.nid ∈ rest.map Prod.fst
        · simp [hmem, List.mem_cons]
        · have hne : ¬(sv.nid = k) := fun h => hk h.symm
          simp [hmem, List.mem_cons, hne]

theorem groupServices_keys_nodup_aux (svs : List EpgService) :
    ∀ m : List (NetworkId × EpgChannel), (m.map Prod.fst).Nodup →
      ((svs.foldl upsertService m).map Prod.fst).Nodup := by
  induction svs with
  | nil => intro m h; simpa using h
  | cons sv tl ih =>
      intro m h
      rw [List.foldl_cons]
      apply ih
      rw [upsertService_keys]
      by_cases hmem : sv.nid ∈ m.map Prod.fst
      · simpa [hmem] using h
      · simp [hmem, List.nodup_append, h]

/-- C3 (amended): the feeder's grouping produces one `EpgChannel` per
distinct network id; its `services` accumulates all service ids seen for
that network id in order; its `name`, `channel_type`, `channel` and
`extra_args` come from the first service seen for that network id; its
`excluded_services` is always empty (the code sets `vec![]`, it is not taken
from the first service). -/
theorem feed_grouping_by_network (svs : List EpgService) (nid : NetworkId) :
    ((groupServices svs).map Prod.fst).Nodup ∧
    ((lookupNid nid (groupServices svs)).isSome ↔ nid ∈ svs.map (fun sv => sv.nid)) ∧
    (∀ ch, lookupNid nid (groupServices svs) = some ch →
       ch.services = (svs.filter (fun sv => sv.nid = nid)).map (fun sv => sv.sid) ∧
       ch.excluded_services = [] ∧
       (∀ sv0 tl, svs.filter (fun sv => sv.nid = nid) = sv0 :: tl →
          ch.name = sv0.channel.name ∧ ch.channel_type = sv0.channel.channel_type ∧
          ch.channel = sv0.channel.channel ∧ ch.extra_args = sv0.channel.extra_args)) := by
  have h := lookupNid_foldl_upsert svs [] nid
  have h0 : lookupNid nid ([] : List (NetworkId × EpgChannel)) = none := rfl
  rw [h0] at h
  refine ⟨groupServices_keys_nodup_aux svs [] (by simp), ?_, ?_⟩
  · rw [show groupServices svs = svs.foldl upsertService [] from rfl, h]
    cases hf : svs.filter (fun sv => sv.nid = nid) with
    | nil =>
        simp only [hf]
        constructor
        · intro hsome
          simp at hsome
        · intro hmem
          obtain ⟨sv, hsv, hnid⟩ := List.mem_map.mp hmem
          have : sv ∈ svs.filter (fun sv => sv.nid = nid) :=
            List.mem_filter.mpr ⟨hsv, by simp [hnid]⟩
          rw [hf] at this
          simp at this
    | cons sv0 tl =>
        simp only [hf]
        constructor
        · intro _
          have : sv0 ∈ svs.filter (fun sv => sv.nid = nid) := by
            rw [hf]; exact List.mem_cons_self sv0 tl
          have hm := List.mem_filter.mp this
          exact List.mem_map.mpr ⟨sv0, hm.1, by simpa using hm.2⟩
        · intro _
          simp
  · intro ch hch
    rw [show groupServices svs = svs.foldl upsertService [] from rfl, h] at hch
    cases hf : svs.filter (fun sv => sv.nid = nid) with
    | nil =>
        rw [hf] at hch
        simp at hch
    | cons sv0 tl =>
        rw [hf] at hch
        have hch3 : ({ mkChannelEntry sv0 with
            services := sv0.sid :: tl.map (fun sv => sv.sid) } : EpgChannel) = ch :=
          Option.some.inj hch
        subst hch3
        refine ⟨?_, ?_, ?_⟩
        · simp [mkChannelEntry]
        · simp [mkChannelEntry]
        · intro sv0' tl' hf2
          obtain ⟨h1, -⟩ := List.cons.inj hf2
          subst h1
          simp [mkChannelEntry]

/-- C3 witness: two services on network 1 and one on network 2; the grouping
at network 1 accumulates both service ids and keeps the first service's
metadata. -/
theorem feed_grouping_by_network_witness :
    (lookupNid 1 (groupServices
        [{ nid := 1, sid := 5, channel := sampleChannel },
         { nid := 2, sid := 6, channel := sampleChannel },
         { nid := 1, sid := 7, channel := sampleChannel }])).isSome := by
  have h := (feed_grouping_by_network
      [{ nid := 1, sid := 5, channel := sampleChannel },
       { nid := 2, sid := 6, channel := sampleChannel },
       { nid := 1, sid := 7, channel := sampleChannel }] 1).2.1
  exact h.mpr (by simp)

/-- C3 counterexample: a single service whose channel carries a non-empty
`excluded_services` list; the grouped channel's `excluded_services` is `[]`,
not the first service's list, refuting the claim as stated. -/
def cexChannelIn : EpgChannel :=
  { name := "c", channel_type := 0, channel := "27", extra_args := "",
    services := [5], excluded_services := [9] }

def cexChannelOut : EpgChannel :=
  { name := "c", channel_type := 0, channel := "27", extra_args := "",
    services := [5], excluded_services := [] }

theorem feed_grouping_excluded_counterexample :
    groupServices [{ nid := 1, sid := 5, channel := cexChannelIn }] = [(1, cexChannelOut)] ∧
    cexChannelOut.excluded_services ≠ cexChannelIn.excluded_services := by
  exact ⟨rfl, by decide⟩

/-! ## The broadcaster (`src/broadcaster.rs`)

`Instant` is modelled as milliseconds on a `Nat` timeline, passed explicitly
as `now` (Rust's `Instant::now()` is monotone, which becomes the hypothesis
`last_received ≤ now` where monotonicity of time is needed).  A subscriber's
bounded mpsc channel is modelled by its queue contents plus a flag recording
whether the receiving end has been dropped; `try_send` on it follows tokio's
semantics: deliver when open and below capacity, report `Full` when at
capacity, report `Closed` when the receiver is gone. -/

abbrev BroadcasterId := Nat
abbrev SubscriberId := Nat
abbrev Chunk := List Nat

/-- `Broadcaster::MAX_CHUNKS`. -/
def MAX_CHUNKS : Nat := 1000

/-- `Broadcaster::CHUNK_SIZE`. -/
def CHUNK_SIZE : Nat := 4096 * 8

structure Subscriber where
  id : SubscriberId
  outbox : List Chunk
  closed : Bool
  deriving DecidableEq

structure Broadcaster where
  id : BroadcasterId
  subscribers : List Subscriber
  time_limit : Nat
  last_received : Nat
  deriving DecidableEq

/-- `Broadcaster::new` (lines 37-54): empty subscriber list,
`last_received = Instant::now()`. -/
def Broadcaster.new (id : BroadcasterId) (time_limit : Nat) (now : Nat) : Broadcaster :=
  { id := id, subscribers := [], time_limit := time_limit, last_received := now }

/-- `Broadcaster::subscribe` (lines 56-60): allocate an outbox and append the
subscriber; no deduplication of ids. -/
def Broadcaster.subscribe (b : Broadcaster) (id : SubscriberId) : Broadcaster :=
  { b with subscribers := b.subscribers ++ [{ id := id, outbox := [], closed := false }] }

/-- `Broadcaster::unsubscribe` (lines 62-65): retain every subscriber whose
id differs. -/
def Broadcaster.unsubscribe (b : Broadcaster) (id : SubscriberId) : Broadcaster :=
  { b with subscribers := b.subscribers.filter (fun s => s.id ≠ id) }

inductive SendResult where
  | sent
  | full
  | closed
  deriving DecidableEq

/-- `subscriber.sender.try_send(chunk.clone())` with tokio mpsc semantics. -/
def trySend (s : Subscriber) (c : Chunk) : Subscriber × SendResult :=
  if s.closed then (s, SendResult.closed)
  else if MAX_CHUNKS ≤ s.outbox.length then (s, SendResult.full)
  else ({ s with outbox := s.outbox ++ [c] }, SendResult.sent)

/-- The `for subscriber in self.subscribers.iter_mut()` loop of
`Broadcaster::broadcast` (lines 67-84): each outcome only logs; no
subscriber is added or removed. -/
def broadcastLoop (c : Chunk) : List Subscriber → List Subscriber
  | [] => []
  | s :: rest => (trySend s c).1 :: broadcastLoop c rest

/-- `Broadcaster::broadcast` (lines 67-87): fan out, then
`last_received = Instant::now()`. -/
def Broadcaster.broadcast (b : Broadcaster) (c : Chunk) (now : Nat) : Broadcaster :=
  { b with subscribers := broadcastLoop c b.subscribers, last_received := now }

/-- `Broadcaster::check_timeout` (lines 89-96): stop iff
`last_received.elapsed() > time_limit`. -/
def Broadcaster.checkTimeoutStops (b : Broadcaster) (now : Nat) : Bool :=
  b.time_limit < now - b.last_received

/-- The receiver half of a subscriber's channel after the broadcaster side
acted: queue contents plus whether the sender has been dropped. -/
structure Receiver where
  buffer : List Chunk
  senderDropped : Bool
  deriving DecidableEq

/-- Stopping the broadcaster (`ctx.stop()` and actor teardown) drops every
subscriber's sender; each subscriber is left with its buffered chunks and a
dropped sender. -/
def Broadcaster.stop (b : Broadcaster) : List Receiver :=
  b.subscribers.map (fun s => { buffer := s.outbox, senderDropped := true })

inductive RecvPoll where
  | ready (c : Chunk)
  | eos
  | pending
  deriving DecidableEq

/-- `BroadcasterStream::poll_next` (lines 219-230) over the modelled
receiver: a buffered chunk is yielded; an empty buffer yields
end-of-sequence iff the sender is dropped, else pends. -/
def recvPoll (r : Receiver) : RecvPoll :=
  match r.buffer with
  | c :: _ => RecvPoll.ready c
  | [] => if r.senderDropped then RecvPoll.eos else RecvPoll.pending

/-- Consuming one item from the receiver. -/
def recvAdvance (r : Receiver) : Receiver :=
  { r with buffer := r.buffer.tail }

/-- `n` consecutive receives. -/
def recvDrain : Nat → Receiver → Receiver
  | 0, r => r
  | n + 1, r => recvDrain n (recvAdvance r)

theorem recvDrain_buffer (n : Nat) :
    ∀ r : Receiver, (recvDrain n r).buffer = r.buffer.drop n ∧
      (recvDrain n r).senderDropped = r.senderDropped := by
  induction n with
  | zero => intro r; simp [recvDrain]
  | succ k ih =>
      intro r
      rw [recvDrain]
      rcases ih (recvAdvance r) with ⟨h1, h2⟩
      refine ⟨?_, by simpa [recvAdvance] using h2⟩
      rw [h1]
      show List.drop k r.buffer.tail = List.drop (k + 1) r.buffer
      rw [← List.drop_one, List.drop_drop, Nat.add_comm]

theorem broadcastLoop_getElem (c : Chunk) (l : List Subscriber) :
    ∀ i : Nat, (broadcastLoop c l)[i]? = (l[i]?).map (fun s => (trySend s c).1) := by
  induction l with
  | nil => intro i; simp [broadcastLoop]
  | cons s rest ih =>
      intro i
      cases i with
      | zero => simp [broadcastLoop]
      | succ k => simpa [broadcastLoop] using ih k

theorem broadcastLoop_map_id (c : Chunk) (l : List Subscriber) :
    (broadcastLoop c l).map (fun s => s.id) = l.map (fun s => s.id) := by
  induction l with
  | nil => simp [broadcastLoop]
  | cons s rest ih =>
      simp only [broadcastLoop, List.map_cons, ih]
      unfold trySend
      by_cases h1 : s.closed
      · simp [h1]
      · by_cases h2 : MAX_CHUNKS ≤ s.outbox.length
        · simp [h1, h2]
        · simp [h1, h2]

/-- C4: fan-out of an inbound chunk never modifies the subscriber list: the
list keeps its length and its ids in order; a closed-receiver subscriber is
left untouched in place; a full-outbox subscriber only loses this chunk and
is retained untouched; an open subscriber with room gets the chunk appended
to its outbox.  Each subscriber's outcome depends only on its own entry
(the fan-out is pointwise), so no subscriber blocks another and nothing
feeds back to the producer. -/
theorem broadcast_preserves_subscribers (b : Broadcaster) (c : Chunk) (now : Nat)
    (i : Nat) (s : Subscriber) (hs : b.subscribers[i]? = some s) :
    (b.broadcast c now).subscribers.length = b.subscribers.length ∧
    (b.broadcast c now).subscribers.map (fun s2 => s2.id)
        = b.subscribers.map (fun s2 => s2.id) ∧
    (s.closed = true → (b.broadcast c now).subscribers[i]? = some s) ∧
    (s.closed = false → MAX_CHUNKS ≤ s.outbox.length →
       (b.broadcast c now).subscribers[i]? = some s) ∧
    (s.closed = false → s.outbox.length < MAX_CHUNKS →
       (b.broadcast c now).subscribers[i]?
         = some { s with outbox := s.outbox ++ [c] }) := by
  have hmap := broadcastLoop_map_id c b.subscribers
  have hlen : (broadcastLoop c b.subscribers).length = b.subscribers.length := by
    have := congrArg List.length hmap
    simpa using this
  have hget := broadcastLoop_getElem c b.subscribers i
  refine ⟨hlen, hmap, ?_, ?_, ?_⟩
  · intro hcl
    show (broadcastLoop c b.subscribers)[i]? = some s
    rw [hget, hs]
    simp [trySend, hcl]
  · intro hcl hfull
    show (broadcastLoop c b.subscribers)[i]? = some s
    rw [hget, hs]
    simp [trySend, hcl, hfull]
  · intro hcl hlt
    show (broadcastLoop c b.subscribers)[i]?
        = some { s with outbox := s.outbox ++ [c] }
    rw [hget, hs]
    simp [trySend, hcl, Nat.not_le.mpr hlt]

/-- C4 witness: a broadcaster with one closed and one open subscriber; the
open subscriber at index 1 receives the chunk in its outbox. -/
theorem broadcast_preserves_subscribers_witness :
    ((Broadcaster.broadcast
        { id := 7, subscribers := [{ id := 1, outbox := [], closed := true },
                                   { id := 2, outbox := [], closed := false }],
          time_limit := 1000, last_received := 0 } [5] 3).subscribers)[1]?
      = some { id := 2, outbox := [[5]], closed := false } :=
  (broadcast_preserves_subscribers
      { id := 7, subscribers := [{ id := 1, outbox := [], closed := true },
                                 { id := 2, outbox := [], closed := false }],
        time_limit := 1000, last_received := 0 } [5] 3 1
      { id := 2, outbox := [], closed := false } rfl).2.2.2.2 rfl
    (by simp [MAX_CHUNKS])

/-- C5: `last_received` equals `now()` right after construction and right
after any fan-out completes (in particular with an empty subscriber list,
for which the fan-out also leaves the list empty); `Subscribe` and
`Unsubscribe` leave it unchanged; under monotone time it is non-decreasing
across every operation. -/
theorem last_received_invariant (id : BroadcasterId) (tl now now2 : Nat)
    (b : Broadcaster) (c : Chunk) (sid sid2 : SubscriberId)
    (hmono : b.last_received ≤ now2) :
    (Broadcaster.new id tl now).last_received = now ∧
    (b.broadcast c now2).last_received = now2 ∧
    ((Broadcaster.new id tl now).broadcast c now2).subscribers = [] ∧
    ((Broadcaster.new id tl now).broadcast c now2).last_received = now2 ∧
    b.last_received ≤ (b.broadcast c now2).last_received ∧
    (b.subscribe sid).last_received = b.last_received ∧
    (b.unsubscribe sid2).last_received = b.last_received := by
  refine ⟨rfl, rfl, rfl, rfl, ?_, rfl, rfl⟩
  simpa [Broadcaster.broadcast] using hmono

/-- C5 witness at concrete values. -/
theorem last_received_invariant_witness :
    (Broadcaster.new 0 1000 4).last_received = 4 :=
  (last_received_invariant 0 1000 4 9 (Broadcaster.new 0 1000 4) [1] 1 2
    (by simp [Broadcaster.new])).1

/-- C6: with the watchdog ticking at times `start + k * time_limit`
(interval `time_limit`, from `Broadcaster::started`), if no chunk arrives
after `last_received` then some tick falls in the window
`(last_received + time_limit, last_received + 2 * time_limit]` and
`check_timeout` stops the broadcaster there — i.e. within one watchdog
interval of the deadline; after the stop every subscriber's stream drains
its buffered chunks and then terminates with end-of-sequence. -/
theorem watchdog_stops_within_interval (b : Broadcaster) (start : Nat)
    (htl : 0 < b.time_limit) (hstart : start ≤ b.last_received) :
    (∃ k : Nat,
       b.last_received + b.time_limit < start + k * b.time_limit ∧
       start + k * b.time_limit ≤ b.last_received + 2 * b.time_limit ∧
       b.checkTimeoutStops (start + k * b.time_limit) = true) ∧
    (∀ r ∈ b.stop, r.senderDropped = true ∧
       recvPoll (recvDrain r.buffer.length r) = RecvPoll.eos) := by
  constructor
  · obtain ⟨q, m, hm, hdm⟩ :
        ∃ q m, m < b.time_limit ∧
          b.time_limit * q + m = b.last_received + b.time_limit - start :=
      ⟨(b.last_received + b.time_limit - start) / b.time_limit,
       (b.last_received + b.time_limit - start) % b.time_limit,
       Nat.mod_lt _ htl, Nat.div_add_mod _ _⟩
    refine ⟨q + 1, ?_, ?_, ?_⟩
    · have he : (q + 1) * b.time_limit = b.time_limit * q + b.time_limit := by ring
      rw [he]
      omega
    · have he : (q + 1) * b.time_limit = b.time_limit * q + b.time_limit := by ring
      rw [he]
      omega
    · have he : (q + 1) * b.time_limit = b.time_limit * q + b.time_limit := by ring
      rw [Broadcaster.checkTimeoutStops, he, decide_eq_true_eq]
      omega
  · intro r hr
    obtain ⟨s, _, hsr⟩ := List.mem_map.mp hr
    have hdrop : r.senderDropped = true := by rw [← hsr]
    obtain ⟨hbuf, hsd⟩ := recvDrain_buffer r.buffer.length r
    refine ⟨hdrop, ?_⟩
    have hb2 : (recvDrain r.buffer.length r).buffer = [] := by
      rw [hbuf]
      simp
    have hs2 : (recvDrain r.buffer.length r).senderDropped = true := by
      rw [hsd, hdrop]
    simp [recvPoll, hb2, hs2]

/-- C6 witness: `time_limit = 50`, last chunk at 100, watchdog started at 80;
tick `k = 2` lands at 180, inside `(150, 200]`, and stops the broadcaster. -/
theorem watchdog_stops_within_interval_witness :
    ∃ k : Nat, 100 + 50 < 80 + k * 50 ∧ 80 + k * 50 ≤ 100 + 2 * 50 ∧
      Broadcaster.checkTimeoutStops
        { id := 0, subscribers := [], time_limit := 50, last_received := 100 }
        (80 + k * 50) = true :=
  (watchdog_stops_within_interval
    { id := 0, subscribers := [], time_limit := 50, last_received := 100 } 80
    (by simp) (by simp)).1

/-- C9 counterexample: `Broadcaster::subscribe` does not deduplicate ids;
subscribing the same id twice yields a list whose ids are not unique,
refuting the claim for arbitrary sequences of `Subscribe` requests. -/
theorem subscribe_duplicate_ids :
    ¬ ((((Broadcaster.new 0 1000 0).subscribe 7).subscribe 7).subscribers.map
        (fun s => s.id)).Nodup := by
  decide

/-- C9 (amended): subscriber ids stay unique provided every `Subscribe` uses
an id not already present — `subscribe` with a fresh id, `unsubscribe`, and
`broadcast` all preserve uniqueness of the ids; the code itself never
deduplicates, so a repeated id yields two independent entries. -/
theorem subscriber_ids_unique (b : Broadcaster) (idn sid2 : SubscriberId)
    (c : Chunk) (now : Nat)
    (h : (b.subscribers.map (fun s => s.id)).Nodup) :
    (idn ∉ b.subscribers.map (fun s => s.id) →
       ((b.subscribe idn).subscribers.map (fun s => s.id)).Nodup) ∧
    ((b.unsubscribe sid2).subscribers.map (fun s => s.id)).Nodup ∧
    ((b.broadcast c now).subscribers.map (fun s => s.id)).Nodup := by
  refine ⟨?_, ?_, ?_⟩
  · intro hnot
    show ((b.subscribers ++ [({ id := idn, outbox := [], closed := false } : Subscriber)]).map
        (fun s => s.id)).Nodup
    rw [List.map_append]
    simp [List.nodup_append, h, hnot]
  · exact List.Nodup.sublist (List.Sublist.map _ (List.filter_sublist _)) h
  · show ((broadcastLoop c b.subscribers).map (fun s => s.id)).Nodup
    rw [broadcastLoop_map_id]
    exact h

/-- C9 witness: distinct ids 1 then 2 subscribed in turn stay unique. -/
theorem subscriber_ids_unique_witness :
    ((((Broadcaster.new 0 1000 0).subscribe 1).subscribe 2).subscribers.map
        (fun s => s.id)).Nodup :=
  (subscriber_ids_unique ((Broadcaster.new 0 1000 0).subscribe 1) 2 0 [] 0
    (by decide)).1 (by decide)


/-- C7 (Chunk Stream, modelled from the spec since `chunk_stream.rs` is not
under `src/`): for every byte source and target size `S > 0`, the
concatenation of the emitted chunks equals the source bytes; every non-final
chunk has length exactly `S`; a chunk is emitted iff the source is
non-empty; and every chunk — in particular the final one — is non-empty
with length at most `S`. -/
theorem chunk_stream_roundtrip (S : Nat) (src : List Nat) (hS : 0 < S) :
    (chunksAcc S [] src).flatten = src ∧
    (∀ ch ∈ (chunksAcc S [] src).dropLast, ch.length = S) ∧
    (chunksAcc S [] src = [] ↔ src = []) ∧
    (∀ ch ∈ chunksAcc S [] src, ch ≠ [] ∧ ch.length ≤ S) := by
  refine ⟨by simpa using chunksAcc_flatten S src [], ?_, chunksAcc_eq_nil_iff S src, ?_⟩
  · exact chunksAcc_dropLast S src [] (by simpa using hS)
  · exact chunksAcc_mem S src [] (by simpa using hS)

/-- C7 witness: `2 * S + 7` bytes at `S = 3` re-concatenate to the source. -/
theorem chunk_stream_roundtrip_witness :
    (chunksAcc 3 [] [1, 2, 3, 4, 5, 6, 7, 8, 9, 10, 11, 12, 13]).flatten
      = [1, 2, 3, 4, 5, 6, 7, 8, 9, 10, 11, 12, 13] :=
  (chunk_stream_roundtrip 3 [1, 2, 3, 4, 5, 6, 7, 8, 9, 10, 11, 12, 13] (by decide)).1
